import Mathlib

/-!
Shallow embedding of the Zentra backend (`src/main.py`,
`src/zentra/connection_manager.py`, `src/zentra/connection.py`) and proofs
about its connection lifecycle, message store, broadcast fan-out, heartbeat
session and rate limiting.
-/

namespace Zentra

/-- Shallow embedding of a websocket handle: all the code under verification
needs from the handle is whether `send_json` succeeds or raises a
transport-closed error (`WebSocketDisconnect` / `ConnectionClosedOK`). -/
structure WebSocket where
  sendOk : Bool
deriving Repr, DecidableEq

/-- `zentra/connection.py`: dataclass `Connection`. -/
structure Connection where
  id : Nat
  name : String
  nonce : String
  websocket : WebSocket
deriving Repr, DecidableEq

/-- `zentra/__init__.py` dataclass `Message` as used by
`connection_manager.py` and `main.py`. -/
structure Message where
  id : Nat
  content : String
  sender_name : String
  sender_id : Nat
  conversation_id : Nat
deriving Repr, DecidableEq

/-- Python `dict` lookup `d.get(k)` over an insertion-ordered association
list. -/
def dictGet {κ α : Type} [DecidableEq κ] : List (κ × α) → κ → Option α
  | [], _ => none
  | (k', v) :: rest, k => if k' = k then some v else dictGet rest k

/-- Python `dict` assignment `d[k] = v`: replaces the value in place if the
key is present, otherwise appends the new binding at the end (insertion
order). -/
def dictSet {κ α : Type} [DecidableEq κ] : List (κ × α) → κ → α → List (κ × α)
  | [], k, v => [(k, v)]
  | (k', v') :: rest, k, v =>
      if k' = k then (k, v) :: rest else (k', v') :: dictSet rest k v

/-- Python `d.pop(k, None)`: removes the binding for `k` if present. -/
def dictPop {κ α : Type} [DecidableEq κ] (d : List (κ × α)) (k : κ) :
    List (κ × α) :=
  d.filter (fun p => p.1 ≠ k)

/-- `zentra/connection_manager.py`: class `ConnectionManager`. The two
`itertools.count(1)` iterators are embedded as the next value each will
yield. -/
structure ConnectionManager where
  current_message_count : Nat
  connection_counter : Nat
  active_connections : List (Nat × Connection)
  conversation_history : List (Nat × List Message)
deriving Repr, DecidableEq

/-- `ConnectionManager.__init__`: both counters start at 1, both maps
empty. -/
def initManager : ConnectionManager :=
  { current_message_count := 1
    connection_counter := 1
    active_connections := []
    conversation_history := [] }

/-- Property `next_message_id`: `next(self._current_message_count)` returns
the current counter value and advances it. -/
def next_message_id (m : ConnectionManager) : Nat × ConnectionManager :=
  (m.current_message_count,
   { m with current_message_count := m.current_message_count + 1 })

/-- Property `next_connection_id`: `next(self._connection_counter)`. -/
def next_connection_id (m : ConnectionManager) : Nat × ConnectionManager :=
  (m.connection_counter,
   { m with connection_counter := m.connection_counter + 1 })

/-- `ConnectionManager.register`: `self.active_connections[connection.id] =
connection` (no duplicate check in the code). -/
def register (m : ConnectionManager) (c : Connection) : ConnectionManager :=
  { m with active_connections := dictSet m.active_connections c.id c }

/-- `ConnectionManager.disconnect`:
`self.active_connections.pop(connection.id, None)`. -/
def disconnect (m : ConnectionManager) (c : Connection) : ConnectionManager :=
  { m with active_connections := dictPop m.active_connections c.id }

/-- First half of `send_message_in_conversation`: append the message to the
conversation's history list, creating the list if the conversation id is not
yet a key. -/
def appendHistory (hist : List (Nat × List Message)) (msg : Message) :
    List (Nat × List Message) :=
  match dictGet hist msg.conversation_id with
  | some msgs => dictSet hist msg.conversation_id (msgs ++ [msg])
  | none => dictSet hist msg.conversation_id [msg]

/-- Second half of `send_message_in_conversation`: the fan-out loop over
`self.active_connections.values()`. Each connection is visited once; a
successful `send_json` records a delivery, a transport-closed error records
the connection in `to_disconnect`. Returns (delivered, to_disconnect) in
visit order. -/
def fanOut : List Connection → List Connection × List Connection
  | [] => ([], [])
  | c :: rest =>
      let (d, f) := fanOut rest
      if c.websocket.sendOk then (c :: d, f) else (d, c :: f)

/-- `ConnectionManager.send_message_in_conversation`: append to history, fan
the `NEW_MESSAGE` packet out to every registered connection, then disconnect
the failed connections only after the pass completes. Also returns the list
of connections the packet was delivered to. -/
def send_message_in_conversation (m : ConnectionManager) (msg : Message) :
    ConnectionManager × List Connection :=
  let hist := appendHistory m.conversation_history msg
  let conns := m.active_connections.map Prod.snd
  let (delivered, to_disconnect) := fanOut conns
  let m1 : ConnectionManager := { m with conversation_history := hist }
  (to_disconnect.foldl (fun acc c => disconnect acc c) m1, delivered)

/-- The manager operations that can interleave between
`next_message_id` calls, for the global-counter claim. -/
inductive MgrOp where
  | nextMessageId
  | nextConnectionId
  | registerOp (c : Connection)
  | disconnectOp (c : Connection)
  | sendMsg (msg : Message)
deriving Repr

/-- Apply one manager operation; the optional output is the value returned
by a counter draw. -/
def applyOp (m : ConnectionManager) : MgrOp → ConnectionManager × Option Nat
  | .nextMessageId =>
      let (v, m') := next_message_id m
      (m', some v)
  | .nextConnectionId =>
      let (v, m') := next_connection_id m
      (m', some v)
  | .registerOp c => (register m c, none)
  | .disconnectOp c => (disconnect m c, none)
  | .sendMsg msg => ((send_message_in_conversation m msg).1, none)

/-- Whether an operation is a `next_message_id` draw. -/
def MgrOp.isNextMessageId : MgrOp → Bool
  | .nextMessageId => true
  | _ => false

/-- The values returned by the `next_message_id` draws inside an arbitrary
operation sequence, in call order. -/
def messageIdOutputs : ConnectionManager → List MgrOp → List Nat
  | _, [] => []
  | m, op :: rest =>
      let m' := (applyOp m op).1
      match op with
      | .nextMessageId => m.current_message_count :: messageIdOutputs m' rest
      | _ => messageIdOutputs m' rest

theorem foldl_disconnect_fields (l : List Connection) (m : ConnectionManager) :
    (l.foldl (fun acc c => disconnect acc c) m).current_message_count =
        m.current_message_count ∧
      (l.foldl (fun acc c => disconnect acc c) m).connection_counter =
        m.connection_counter ∧
      (l.foldl (fun acc c => disconnect acc c) m).conversation_history =
        m.conversation_history := by
  induction l generalizing m with
  | nil => exact ⟨rfl, rfl, rfl⟩
  | cons c rest ih => simpa [disconnect] using ih (disconnect m c)

theorem applyOp_message_count (m : ConnectionManager) (op : MgrOp) :
    ((applyOp m op).1).current_message_count =
      (if op.isNextMessageId then m.current_message_count + 1
       else m.current_message_count) := by
  cases op <;>
    simp [applyOp, MgrOp.isNextMessageId, next_message_id, next_connection_id,
      register, disconnect, send_message_in_conversation]
  case sendMsg msg =>
    exact (foldl_disconnect_fields _ _).1

theorem messageIdOutputs_eq (ops : List MgrOp) (m : ConnectionManager) :
    messageIdOutputs m ops =
      List.range' m.current_message_count
        (ops.filter MgrOp.isNextMessageId).length := by
  induction ops generalizing m with
  | nil => simp [messageIdOutputs]
  | cons op rest ih =>
      have hcount := applyOp_message_count m op
      cases hop : op.isNextMessageId
      · have : op ≠ MgrOp.nextMessageId := by
          intro h; subst h; simp [MgrOp.isNextMessageId] at hop
        cases op <;> simp_all [messageIdOutputs, List.filter, hop, ih, hcount]
      · have : op = MgrOp.nextMessageId := by
          cases op <;> simp_all [MgrOp.isNextMessageId]
        subst this
        simp [messageIdOutputs, List.filter, hop, ih, hcount,
          List.range'_succ]

/-- C3: For every sequence of calls to `next_message_id()`, interleaved with
any other manager operations, the returned values are exactly
`1, 2, 3, ...` in call order — strictly increasing, starting at 1, one per
call, with no gaps or repeats, and no operation resets or decrements the
counter. -/
theorem next_message_id_global_sequence (ops : List MgrOp) :
    messageIdOutputs initManager ops =
      List.range' 1 (ops.filter MgrOp.isNextMessageId).length := by
  simpa [initManager] using messageIdOutputs_eq ops initManager

/-! ## Heartbeat session (`websocket_endpoint` in `src/main.py`) -/

/-- JSON values as produced by `json.loads`. Numbers are modelled as
integers; the heartbeat protocol only exchanges integer acks. -/
inductive JVal where
  | jnull
  | jbool (b : Bool)
  | jnum (n : Int)
  | jstr (s : String)
  | jarr (elems : List JVal)
  | jobj (fields : List (String × JVal))
deriving Repr

/-- Python truthiness (`if not x`) for JSON values. -/
def truthy : JVal → Bool
  | .jnull => false
  | .jbool b => b
  | .jnum n => n != 0
  | .jstr s => s ≠ ""
  | .jarr l => ! l.isEmpty
  | .jobj f => ! f.isEmpty

/-- The test `data.get("type") != "PONG"` (negated): only the string
`"PONG"` passes. -/
def isPong : Option JVal → Bool
  | some (.jstr s) => s = "PONG"
  | _ => false

/-- The test `sent_ack != current_ack` (negated): Python int equality
against a possibly absent JSON value, with `True == 1` and `False == 0`. -/
def pyEqNat : Option JVal → Nat → Bool
  | some (.jnum n), k => n = (k : Int)
  | some (.jbool b), k => (if b then (1 : Int) else 0) = (k : Int)
  | _, _ => false

/-- Outcome of processing one inbound heartbeat response. -/
inductive HBOutcome where
  | miss (code : Nat)
  | pongOk
  | crash
deriving Repr, DecidableEq

/-- Step-5 classification of an inbound response, exactly as the body of the
`while True` loop performs it. `none` stands for a text payload that is not
valid JSON (`JSONDecodeError`). `crash` marks an unhandled exception: the
4003 branch evaluates `data['type']` inside its log f-string (`KeyError`
when the key is absent), and `.get` on a non-dict raises
`AttributeError`. -/
def classify (current_ack : Nat) : Option JVal → HBOutcome
  | none => .miss 4001
  | some data =>
    match data with
    | .jobj fields =>
        if ! isPong (dictGet fields "type") then
          match dictGet fields "type" with
          | none => .crash
          | some _ => .miss 4003
        else
          match dictGet fields "data" with
          | none => .miss 4004
          | some nd =>
              if ! truthy nd then .miss 4004
              else
                match nd with
                | .jobj nf =>
                    if ! pyEqNat (dictGet nf "ack") current_ack then .miss 4005
                    else .pongOk
                | _ => .crash
    | _ => .crash

/-- The per-connection heartbeat variables of `websocket_endpoint`. -/
structure HBState where
  current_ack : Nat
  has_missed_ping : Bool
  has_missed_ping_twice : Bool
deriving Repr, DecidableEq

/-- What one loop iteration did to the client. -/
inductive HBAction where
  | closed4002
  | sentError (code : Nat)
  | pongAccepted
  | crashed
deriving Repr, DecidableEq

/-- One iteration of the `while True` loop in `websocket_endpoint`: first
the check at the top of the loop that force-closes with code 4002 after a
second consecutive miss, then (PING sent, one response received) the
classification of the inbound payload: a miss sends the ERROR notification
with its code and sets the miss flags, a correct PONG advances
`current_ack` and clears both flags. -/
def hbStep (st : HBState) (raw : Option JVal) : HBAction × HBState :=
  if st.has_missed_ping_twice then (.closed4002, st)
  else
    match classify st.current_ack raw with
    | .miss code =>
        (.sentError code,
         { st with
            has_missed_ping := true
            has_missed_ping_twice := st.has_missed_ping })
    | .pongOk =>
        (.pongAccepted,
         { current_ack := st.current_ack + 1
           has_missed_ping := false
           has_missed_ping_twice := false })
    | .crash => (.crashed, st)

/-- Heartbeat state at loop entry: `current_ack = 0`, no misses. -/
def initHBState : HBState := ⟨0, false, false⟩

/-- Actions of a whole run of the heartbeat loop over a list of inbound
responses. -/
def hbRun (st : HBState) : List (Option JVal) → List HBAction
  | [] => []
  | r :: rest =>
      let (a, st') := hbStep st r
      a :: hbRun st' rest

/-- Final state of a run of the heartbeat loop. -/
def hbRunState (st : HBState) : List (Option JVal) → HBState
  | [] => st
  | r :: rest => hbRunState (hbStep st r).2 rest

/-- All states the heartbeat loop passes through during a run, the initial
one included. -/
def hbStates (st : HBState) : List (Option JVal) → List HBState
  | [] => [st]
  | r :: rest => st :: hbStates (hbStep st r).2 rest

/-- The client answers every challenge of the run with a response the loop
classifies as a correct PONG for the ack expected at that point. -/
def allCorrectPongs (st : HBState) : List (Option JVal) → Prop
  | [] => True
  | r :: rest =>
      classify st.current_ack r = .pongOk ∧
        allCorrectPongs (hbStep st r).2 rest

/-- A well-formed correct PONG reply for ack value `a`. -/
def goodPong (a : Nat) : Option JVal :=
  some (.jobj [("type", .jstr "PONG"), ("data", .jobj [("ack", .jnum a)])])

/-- C1: the 4003 branch of the step-5 classification crashes instead of
reporting a miss when the JSON object has no `type` key (the log f-string
evaluates `data['type']`, raising `KeyError`), and likewise any valid-JSON
payload that is not an object raises `AttributeError` on `.get`; the
session's loop iteration ends in an unhandled exception, so no ERROR
notification is sent and the violation propagates out of the session. -/
theorem classify_crashes_on_missing_type :
    classify 0 (some (.jobj [])) = HBOutcome.crash ∧
      classify 0 (some (.jobj [("data", .jobj [("ack", .jnum 0)])])) =
        HBOutcome.crash ∧
      classify 0 (some (.jnum 5)) = HBOutcome.crash ∧
      hbStep initHBState (some (.jobj [])) = (HBAction.crashed, initHBState) := by
  refine ⟨rfl, rfl, rfl, ?_⟩
  simp [hbStep, initHBState, classify, isPong, dictGet]

/-- C2: from a state with no pending miss, two consecutive misses (of any
violation kinds) send the two ERROR notifications without closing and
without advancing `current_ack`; the forced close with code 4002 happens at
the start of the following loop cycle, whatever response that cycle would
bring; a single miss only sends the error notification: it does not close
the connection (the next cycle does not start with a close) and does not
advance `current_ack`. -/
theorem double_miss_closes_on_following_cycle (st : HBState)
    (r1 r2 r3 : Option JVal) (c1 c2 : Nat)
    (h0 : st.has_missed_ping = false)
    (h0' : st.has_missed_ping_twice = false)
    (hm1 : classify st.current_ack r1 = .miss c1)
    (hm2 : classify st.current_ack r2 = .miss c2) :
    (hbStep st r1).1 = .sentError c1 ∧
      ((hbStep st r1).2).current_ack = st.current_ack ∧
      ((hbStep st r1).2).has_missed_ping_twice = false ∧
      (hbStep (hbStep st r1).2 r2).1 = .sentError c2 ∧
      ((hbStep (hbStep st r1).2 r2).2).current_ack = st.current_ack ∧
      (hbStep (hbStep (hbStep st r1).2 r2).2 r3).1 = .closed4002 := by
  simp [hbStep, h0, h0', hm1, hm2]

theorem double_miss_closes_on_following_cycle_witness :
    (initHBState.has_missed_ping = false ∧
        initHBState.has_missed_ping_twice = false ∧
        classify initHBState.current_ack none = .miss 4001) ∧
      (hbStep (hbStep (hbStep initHBState none).2 none).2 none).1 =
        .closed4002 := by
  have h := double_miss_closes_on_following_cycle initHBState none none none
    4001 4001 rfl rfl rfl rfl
  exact ⟨⟨rfl, rfl, rfl⟩, h.2.2.2.2.2⟩

theorem hbRun_allCorrect (raws : List (Option JVal)) (st : HBState)
    (h1 : st.has_missed_ping = false) (h2 : st.has_missed_ping_twice = false)
    (h : allCorrectPongs st raws) :
    hbRun st raws = raws.map (fun _ => HBAction.pongAccepted) ∧
      hbRunState st raws =
        ⟨st.current_ack + raws.length, false, false⟩ ∧
      ∀ s ∈ hbStates st raws,
        s.has_missed_ping = false ∧ s.has_missed_ping_twice = false := by
  induction raws generalizing st with
  | nil =>
      refine ⟨rfl, ?_, ?_⟩
      · cases st; simp_all [hbRunState]
      · intro s hs
        simp [hbStates] at hs
        subst hs; exact ⟨h1, h2⟩
  | cons r rest ih =>
      obtain ⟨hc, hrest⟩ := h
      have hstep : hbStep st r =
          (.pongAccepted, ⟨st.current_ack + 1, false, false⟩) := by
        simp [hbStep, h2, hc]
      have ih' := ih ⟨st.current_ack + 1, false, false⟩ rfl rfl
        (by rw [hstep] at hrest; exact hrest)
      refine ⟨?_, ?_, ?_⟩
      · simp [hbRun, hstep, ih'.1]
      · simp [hbRunState, hstep, ih'.2.1, Nat.add_comm, Nat.add_assoc,
          Nat.add_left_comm]
      · intro s hs
        simp only [hbStates, hstep, List.mem_cons] at hs
        rcases hs with hs | hs
        · subst hs; exact ⟨h1, h2⟩
        · exact ih'.2.2 s hs

/-- C9: a session whose client answers every challenge with a well-formed
PONG carrying the expected ack value produces only `pongAccepted` actions
(no ERROR, no close), ends with `current_ack` advanced by one per response,
and never has a non-zero miss counter at any point of the run. -/
theorem always_correct_client_never_closes (raws : List (Option JVal))
    (h : allCorrectPongs initHBState raws) :
    hbRun initHBState raws = raws.map (fun _ => HBAction.pongAccepted) ∧
      hbRunState initHBState raws = ⟨raws.length, false, false⟩ ∧
      ∀ s ∈ hbStates initHBState raws,
        s.has_missed_ping = false ∧ s.has_missed_ping_twice = false := by
  have := hbRun_allCorrect raws initHBState rfl rfl h
  simpa [initHBState] using this

theorem always_correct_client_never_closes_witness :
    allCorrectPongs initHBState [goodPong 0, goodPong 1, goodPong 2] ∧
      hbRun initHBState [goodPong 0, goodPong 1, goodPong 2] =
        [HBAction.pongAccepted, HBAction.pongAccepted, HBAction.pongAccepted] := by
  have hall : allCorrectPongs initHBState [goodPong 0, goodPong 1, goodPong 2] := by
    refine ⟨by decide, by decide, by decide, trivial⟩
  have h := always_correct_client_never_closes
    [goodPong 0, goodPong 1, goodPong 2] hall
  exact ⟨hall, h.1⟩

/-! ## Write surface: the `send_message` route (`src/main.py`) -/

/-- Body of the `send_message` route handler, after the authenticated-send
limiter has admitted the request: look the connection up by the
`X-Connection-Id` header (absent header modelled as `none`), reject with
401 unless the connection exists and the `X-Nonce` header equals its nonce
exactly, otherwise draw a message id from the global counter, build the
message and broadcast it. Returns the HTTP status (204 or 401) and the new
manager state. -/
def send_message (m : ConnectionManager) (conversation_id : Nat)
    (content : String) (x_connection_id : Option Nat)
    (x_nonce : Option String) : Nat × ConnectionManager :=
  let connection :=
    match x_connection_id with
    | none => none
    | some cid => dictGet m.active_connections cid
  match connection with
  | none => (401, m)
  | some conn =>
      if x_nonce ≠ some conn.nonce then (401, m)
      else
        let (mid, m1) := next_message_id m
        let msg : Message :=
          { id := mid, content := content, sender_name := conn.name,
            sender_id := conn.id, conversation_id := conversation_id }
        (204, (send_message_in_conversation m1 msg).1)

/-- C4: a send request whose connection id is absent or not registered, or
whose nonce differs from the registered connection's nonce, is answered
with 401 and leaves the manager exactly as it was: no conversation history
entry is appended and no message id is drawn from the global counter. -/
theorem unauthorized_send_no_mutation (m : ConnectionManager)
    (conversation_id : Nat) (content : String)
    (x_connection_id : Option Nat) (x_nonce : Option String)
    (hauth : ∀ cid, x_connection_id = some cid →
      ∀ conn, dictGet m.active_connections cid = some conn →
        x_nonce ≠ some conn.nonce) :
    send_message m conversation_id content x_connection_id x_nonce =
      (401, m) := by
  cases hcid : x_connection_id with
  | none => simp [send_message, hcid]
  | some cid =>
      cases hconn : dictGet m.active_connections cid with
      | none => simp [send_message, hcid, hconn]
      | some conn =>
          have hne := hauth cid hcid conn hconn
          simp [send_message, hcid, hconn, hne]

theorem unauthorized_send_no_mutation_witness :
    let alice : Connection := ⟨1, "alice", "n1", ⟨true⟩⟩
    let m := register initManager alice
    (∀ cid, (some 1 : Option Nat) = some cid →
      ∀ conn, dictGet m.active_connections cid = some conn →
        (some "wrong" : Option String) ≠ some conn.nonce) ∧
      send_message m 7 "hi" (some 1) (some "wrong") = (401, m) := by
  refine ⟨?_, ?_⟩
  · intro cid hcid conn hconn
    cases hcid
    simp [register, initManager, dictSet, dictGet] at hconn
    subst hconn
    decide
  · exact unauthorized_send_no_mutation _ 7 "hi" (some 1) (some "wrong")
      (by
        intro cid hcid conn hconn
        cases hcid
        simp [register, initManager, dictSet, dictGet] at hconn
        subst hconn
        decide)

/-! ## Connection registry: `register` (C6) -/

theorem dictGet_dictSet_self {κ α : Type} [DecidableEq κ]
    (d : List (κ × α)) (k : κ) (v : α) :
    dictGet (dictSet d k v) k = some v := by
  induction d with
  | nil => simp [dictGet, dictSet]
  | cons p rest ih =>
      obtain ⟨k', v'⟩ := p
      by_cases h : k' = k <;> simp [dictSet, dictGet, h, ih]

theorem dictGet_dictSet_ne {κ α : Type} [DecidableEq κ]
    (d : List (κ × α)) (k k' : κ) (v : α) (h : k' ≠ k) :
    dictGet (dictSet d k v) k' = dictGet d k' := by
  induction d with
  | nil => simp [dictGet, dictSet, Ne.symm h]
  | cons p rest ih =>
      obtain ⟨k0, v0⟩ := p
      by_cases h0 : k0 = k
      · subst h0
        simp [dictSet, dictGet, Ne.symm h]
      · simp [dictSet, dictGet, h0, ih]

/-- C6 (counterexample): `register` performs no duplicate check. With a
connection of id 1 already registered, registering a second connection with
the same id does not fail with any error: it silently replaces the first
entry in the registry. -/
theorem register_duplicate_overwrites :
    (dictGet (register initManager ⟨1, "alice", "n1", ⟨true⟩⟩).active_connections
        1 = some ⟨1, "alice", "n1", ⟨true⟩⟩) ∧
      dictGet
          (register (register initManager ⟨1, "alice", "n1", ⟨true⟩⟩)
              ⟨1, "mallory", "n2", ⟨true⟩⟩).active_connections 1 =
        some ⟨1, "mallory", "n2", ⟨true⟩⟩ := by
  constructor <;> rfl

/-- C6 (amended): `register(c)` always succeeds; it inserts `c` keyed by
`c.id`, overwriting any existing entry with that id, and leaves entries
under every other id untouched. -/
theorem register_inserts_by_id (m : ConnectionManager) (c : Connection) :
    dictGet (register m c).active_connections c.id = some c ∧
      ∀ k, k ≠ c.id →
        dictGet (register m c).active_connections k =
          dictGet m.active_connections k := by
  refine ⟨dictGet_dictSet_self _ _ _, ?_⟩
  intro k hk
  exact dictGet_dictSet_ne _ _ _ _ hk

theorem register_inserts_by_id_witness :
    dictGet
        (register initManager ⟨1, "alice", "n1", ⟨true⟩⟩).active_connections
        1 = some ⟨1, "alice", "n1", ⟨true⟩⟩ ∧
      ((2 : Nat) ≠ 1 ∧
        dictGet
            (register initManager
                ⟨1, "alice", "n1", ⟨true⟩⟩).active_connections 2 =
          dictGet initManager.active_connections 2) := by
  have h := register_inserts_by_id initManager ⟨1, "alice", "n1", ⟨true⟩⟩
  exact ⟨h.1, by decide, h.2 2 (by decide)⟩

/-! ## Broadcast fan-out (C5) -/

/-- Registry well-formedness: connection ids key the map (each entry is
stored under its connection's id) and no id appears twice. `register`
keys every insert by `connection.id`, so every state the code builds
satisfies this. -/
def RegistryWF (m : ConnectionManager) : Prop :=
  (m.active_connections.map Prod.fst).Nodup ∧
    ∀ p ∈ m.active_connections, p.2.id = p.1

theorem fanOut_spec (conns : List Connection) :
    fanOut conns =
      (conns.filter (fun c => c.websocket.sendOk),
       conns.filter (fun c => ! c.websocket.sendOk)) := by
  induction conns with
  | nil => rfl
  | cons c rest ih =>
      cases h : c.websocket.sendOk <;> simp [fanOut, ih, h]

theorem foldl_disconnect_active (l : List Connection) (m : ConnectionManager) :
    (l.foldl (fun acc c => disconnect acc c) m).active_connections =
      m.active_connections.filter
        (fun p => decide (∀ c ∈ l, p.1 ≠ c.id)) := by
  induction l generalizing m with
  | nil => simp
  | cons c rest ih =>
      rw [List.foldl_cons, ih]
      simp only [disconnect, dictPop, List.filter_filter]
      apply List.filter_congr
      intro p _
      by_cases h1 : p.1 = c.id <;> simp [h1]

theorem nodup_keys_eq {κ α : Type} [DecidableEq κ] (d : List (κ × α))
    (hnd : (d.map Prod.fst).Nodup) (p q : κ × α) (hp : p ∈ d) (hq : q ∈ d)
    (hk : p.1 = q.1) : p = q := by
  induction d with
  | nil => cases hp
  | cons r rest ih =>
      rw [List.map_cons] at hnd
      have h1 := (List.nodup_cons.mp hnd).1
      have h2 := (List.nodup_cons.mp hnd).2
      rcases List.mem_cons.mp hp with hp1 | hp1 <;>
        rcases List.mem_cons.mp hq with hq1 | hq1
      · rw [hp1, hq1]
      · exfalso
        apply h1
        rw [hp1] at hk
        rw [hk]
        exact List.mem_map_of_mem Prod.fst hq1
      · exfalso
        apply h1
        rw [hq1] at hk
        rw [← hk]
        exact List.mem_map_of_mem Prod.fst hp1
      · exact ih h2 hp1 hq1

theorem registry_values_nodup (m : ConnectionManager) (hwf : RegistryWF m) :
    (m.active_connections.map Prod.snd).Nodup := by
  have hmap : m.active_connections.map Prod.fst =
      (m.active_connections.map Prod.snd).map Connection.id := by
    rw [List.map_map]
    exact (List.map_congr_left (fun p hp => (hwf.2 p hp).symm))
  exact List.Nodup.of_map Connection.id (hmap ▸ hwf.1)

theorem mem_registry_pair (m : ConnectionManager) (hwf : RegistryWF m)
    (c : Connection) (hc : c ∈ m.active_connections.map Prod.snd) :
    (c.id, c) ∈ m.active_connections := by
  obtain ⟨p, hp, hpc⟩ := List.mem_map.mp hc
  have hkey := hwf.2 p hp
  obtain ⟨k, v⟩ := p
  have hkey' : v.id = k := hkey
  have hvc : v = c := hpc
  subst hvc
  rw [hkey']
  exact hp

/-- C5: one `send_message_in_conversation` call fans the packet out
independently to every registered connection: the delivered list is exactly
the open-transport connections (a closed transport elsewhere never aborts
the pass), the registry afterwards is exactly the original entries whose
transport was open (failures pruned only after the pass), and every
connection registered at fan-out start either receives the notification
exactly once and stays registered, or receives nothing and is removed. -/
theorem broadcast_fanout_partition (m : ConnectionManager) (msg : Message)
    (hwf : RegistryWF m) :
    (send_message_in_conversation m msg).2 =
        (m.active_connections.map Prod.snd).filter
          (fun c => c.websocket.sendOk) ∧
      ((send_message_in_conversation m msg).1).active_connections =
        m.active_connections.filter (fun p => p.2.websocket.sendOk) ∧
      ∀ c ∈ m.active_connections.map Prod.snd,
        (c.websocket.sendOk = true →
          ((send_message_in_conversation m msg).2).count c = 1 ∧
            (c.id, c) ∈
              ((send_message_in_conversation m msg).1).active_connections) ∧
        (c.websocket.sendOk = false →
          c ∉ (send_message_in_conversation m msg).2 ∧
            ∀ v, (c.id, v) ∉
              ((send_message_in_conversation m msg).1).active_connections) := by
  have hdeliv : (send_message_in_conversation m msg).2 =
      (m.active_connections.map Prod.snd).filter
        (fun c => c.websocket.sendOk) := by
    simp [send_message_in_conversation, fanOut_spec]
  have hactive : ((send_message_in_conversation m msg).1).active_connections =
      m.active_connections.filter (fun p => p.2.websocket.sendOk) := by
    simp only [send_message_in_conversation, fanOut_spec]
    rw [foldl_disconnect_active]
    apply List.filter_congr
    intro p hp
    replace hp : p ∈ m.active_connections := hp
    cases hok : p.2.websocket.sendOk with
    | false =>
        simp only [decide_eq_false_iff_not, Classical.not_forall]
        refine ⟨p.2, ?_⟩
        simp only [List.mem_filter, Bool.not_eq_eq_eq_not, Bool.not_true, exists_prop]
        exact ⟨⟨List.mem_map_of_mem Prod.snd hp, by simp [hok]⟩,
          by simp [(hwf.2 p hp).symm]⟩
    | true =>
        simp only [decide_eq_true_eq]
        intro c hcmem hpc
        have hcf := List.mem_filter.mp hcmem
        have hcpair := mem_registry_pair m hwf c hcf.1
        have heq : ((c.id, c) : Nat × Connection) = p :=
          nodup_keys_eq m.active_connections hwf.1 _ _ hcpair hp
            (by simpa using hpc.symm)
        have hcp : c = p.2 := by rw [← heq]
        rw [← hcp] at hok
        simp [hok] at hcf
  refine ⟨hdeliv, hactive, ?_⟩
  intro c hc
  constructor
  · intro hok
    constructor
    · rw [hdeliv]
      rw [List.count_filter (by simp [hok])]
      exact List.count_eq_one_of_mem (registry_values_nodup m hwf) hc
    · rw [hactive]
      exact List.mem_filter.mpr ⟨mem_registry_pair m hwf c hc, by simp [hok]⟩
  · intro hfail
    constructor
    · rw [hdeliv]
      intro hmem
      have := (List.mem_filter.mp hmem).2
      simp [hfail] at this
    · intro v hmem
      rw [hactive] at hmem
      have hvf := List.mem_filter.mp hmem
      have hcpair := mem_registry_pair m hwf c hc
      have heq : ((c.id, v) : Nat × Connection) = (c.id, c) :=
        nodup_keys_eq m.active_connections hwf.1 _ _ hvf.1 hcpair rfl
      have : v = c := by injection heq
      subst this
      simp [hfail] at hvf

theorem broadcast_fanout_partition_witness :
    let a : Connection := ⟨1, "alice", "n1", ⟨true⟩⟩
    let b : Connection := ⟨2, "bob", "n2", ⟨false⟩⟩
    let m : ConnectionManager := register (register initManager a) b
    let msg : Message := ⟨1, "hi", "alice", 1, 7⟩
    RegistryWF m ∧
      (send_message_in_conversation m msg).2 = [a] ∧
      ((send_message_in_conversation m msg).1).active_connections = [(1, a)] := by
  intro a b m msg
  have hwf : RegistryWF m := by
    constructor
    · decide
    · intro p hp
      simp [m, register, initManager, dictSet, a, b] at hp
      rcases hp with hp | hp <;> simp [hp, a, b]
  have h := broadcast_fanout_partition m msg hwf
  refine ⟨hwf, ?_, ?_⟩
  · rw [h.1]; rfl
  · rw [h.2.1]; rfl

/-! ## Message store: history and latest (C8, C10) -/

/-- The conversation's stored message list: `conversation_history.get(c)`
with a missing key read as the empty history. -/
def historyOf (m : ConnectionManager) (c : Nat) : List Message :=
  (dictGet m.conversation_history c).getD []

/-- Broadcast a whole list of messages in order. -/
def sendAll (m : ConnectionManager) : List Message → ConnectionManager
  | [] => m
  | msg :: rest => sendAll (send_message_in_conversation m msg).1 rest

/-- `fetch_latest_message` route: 404 when the conversation id is absent or
its history list is falsy (`if not conversations`), otherwise
`conversations[-1]`. -/
def fetch_latest_message (m : ConnectionManager) (conversation_id : Nat) :
    Except Nat Message :=
  match dictGet m.conversation_history conversation_id with
  | none => .error 404
  | some [] => .error 404
  | some (msg :: rest) => .ok ((msg :: rest).getLast (List.cons_ne_nil msg rest))

/-- `fetch_all_latest_messages` route: `conversation[-1]` for every value of
the history map in insertion order; `none` models the `IndexError` an empty
history list would raise. -/
def fetch_all_latest_messages (m : ConnectionManager) : Option (List Message) :=
  m.conversation_history.foldr
    (fun p acc =>
      match p.2.getLast?, acc with
      | some msg, some rest => some (msg :: rest)
      | _, _ => none)
    (some [])

theorem dictGet_appendHistory (hist : List (Nat × List Message))
    (msg : Message) (c : Nat) :
    dictGet (appendHistory hist msg) c =
      if c = msg.conversation_id
      then some ((dictGet hist msg.conversation_id).getD [] ++ [msg])
      else dictGet hist c := by
  unfold appendHistory
  cases hh : dictGet hist msg.conversation_id with
  | none =>
      by_cases hc : c = msg.conversation_id
      · subst hc; simp [dictGet_dictSet_self, hh]
      · simp [dictGet_dictSet_ne _ _ _ _ hc, hc]
  | some msgs =>
      by_cases hc : c = msg.conversation_id
      · subst hc; simp [dictGet_dictSet_self, hh]
      · simp [dictGet_dictSet_ne _ _ _ _ hc, hc]

theorem send_message_history (m : ConnectionManager) (msg : Message) :
    ((send_message_in_conversation m msg).1).conversation_history =
      appendHistory m.conversation_history msg := by
  simp only [send_message_in_conversation]
  exact (foldl_disconnect_fields _ _).2.2

theorem historyOf_send (m : ConnectionManager) (msg : Message) (c : Nat) :
    historyOf ((send_message_in_conversation m msg).1) c =
      if c = msg.conversation_id then historyOf m c ++ [msg]
      else historyOf m c := by
  simp only [historyOf, send_message_history, dictGet_appendHistory]
  by_cases hc : c = msg.conversation_id <;> simp [hc]

theorem history_append (m : ConnectionManager) (c : Nat) (msgs : List Message)
    (hc : ∀ msg ∈ msgs, msg.conversation_id = c) :
    historyOf (sendAll m msgs) c = historyOf m c ++ msgs := by
  induction msgs generalizing m with
  | nil => simp [sendAll]
  | cons msg rest ih =>
      have hmc : msg.conversation_id = c := hc msg (List.mem_cons_self msg rest)
      rw [sendAll, ih _ (fun x hx => hc x (List.mem_cons_of_mem _ hx)),
        historyOf_send]
      simp [hmc]

theorem dictGet_of_historyOf_ne_nil (m : ConnectionManager) (c : Nat)
    (h : historyOf m c ≠ []) :
    dictGet m.conversation_history c = some (historyOf m c) := by
  cases hh : dictGet m.conversation_history c with
  | none =>
      exfalso
      apply h
      unfold historyOf
      rw [hh]
      rfl
  | some l =>
      unfold historyOf
      rw [hh]
      rfl

theorem fetch_latest_eq (m : ConnectionManager) (c : Nat) (l : List Message)
    (hl : dictGet m.conversation_history c = some l) (x : Message)
    (hx : l.getLast? = some x) : fetch_latest_message m c = .ok x := by
  cases l with
  | nil => simp at hx
  | cons a as =>
      rw [List.getLast?_eq_getLast (a :: as) (List.cons_ne_nil a as)] at hx
      simp only [fetch_latest_message, hl]
      injection hx with hx2
      rw [hx2]

/-- C8: appending messages to a conversation (via the broadcast engine)
stores them in assignment order: the history list after the calls is the
old history followed by the appended messages in call order,
`fetch_latest_message` returns the last appended element, and for a fresh
conversation a sequence appended in non-decreasing id order yields a
history non-decreasing in id. -/
theorem history_order_and_latest (m : ConnectionManager) (c : Nat)
    (msgs : List Message) (hc : ∀ msg ∈ msgs, msg.conversation_id = c) :
    historyOf (sendAll m msgs) c = historyOf m c ++ msgs ∧
      (∀ last, msgs.getLast? = some last →
        fetch_latest_message (sendAll m msgs) c = .ok last) ∧
      (historyOf m c = [] →
        List.Chain' (fun a b => a.id ≤ b.id) msgs →
        List.Chain' (fun a b => a.id ≤ b.id) (historyOf (sendAll m msgs) c)) := by
  have hh := history_append m c msgs hc
  refine ⟨hh, ?_, ?_⟩
  · intro last hlast
    have hne : msgs ≠ [] := by
      intro h; rw [h] at hlast; simp at hlast
    have hne2 : historyOf (sendAll m msgs) c ≠ [] := by
      rw [hh]; simp [hne]
    apply fetch_latest_eq _ _ _ (dictGet_of_historyOf_ne_nil _ _ hne2)
    rw [hh, List.getLast?_append_of_ne_nil _ hne]
    exact hlast
  · intro h0 hchain
    rw [hh, h0, List.nil_append]
    exact hchain

theorem history_order_and_latest_witness :
    let m1 : Message := ⟨1, "hi", "alice", 1, 7⟩
    let m2 : Message := ⟨2, "yo", "bob", 2, 7⟩
    (∀ msg ∈ [m1, m2], msg.conversation_id = 7) ∧
      historyOf (sendAll initManager [m1, m2]) 7 = [m1, m2] ∧
      fetch_latest_message (sendAll initManager [m1, m2]) 7 = .ok m2 := by
  intro m1 m2
  have hc : ∀ msg ∈ [m1, m2], msg.conversation_id = 7 := by decide
  have h := history_order_and_latest initManager 7 [m1, m2] hc
  exact ⟨hc, by rw [h.1]; rfl, h.2.1 m2 rfl⟩

/-! ## Reachable manager states and the non-empty-history invariant (C10) -/

theorem mem_dictSet {κ α : Type} [DecidableEq κ] (d : List (κ × α)) (k : κ)
    (v : α) (p : κ × α) (hp : p ∈ dictSet d k v) : p = (k, v) ∨ p ∈ d := by
  induction d with
  | nil => simpa [dictSet] using hp
  | cons q rest ih =>
      obtain ⟨k0, v0⟩ := q
      by_cases h : k0 = k
      · subst h
        rw [dictSet, if_pos rfl] at hp
        rcases List.mem_cons.mp hp with h1 | h1
        · exact Or.inl h1
        · exact Or.inr (List.mem_cons_of_mem _ h1)
      · rw [dictSet, if_neg h] at hp
        rcases List.mem_cons.mp hp with h1 | h1
        · exact Or.inr (List.mem_cons.mpr (Or.inl h1))
        · rcases ih h1 with h2 | h2
          · exact Or.inl h2
          · exact Or.inr (List.mem_cons_of_mem _ h2)

theorem mem_of_dictGet {κ α : Type} [DecidableEq κ] (d : List (κ × α)) (k : κ)
    (v : α) (h : dictGet d k = some v) : (k, v) ∈ d := by
  induction d with
  | nil => simp [dictGet] at h
  | cons q rest ih =>
      obtain ⟨k0, v0⟩ := q
      rw [dictGet] at h
      split at h
      · next heq =>
          cases h
          subst heq
          exact List.mem_cons_self _ _
      · next => exact List.mem_cons_of_mem _ (ih h)

/-- The manager states the program can actually build: the initial manager,
closed under every operation of `ConnectionManager` as the routes and the
websocket endpoint invoke them. -/
inductive Reachable : ConnectionManager → Prop where
  | init : Reachable initManager
  | nextMsg (m : ConnectionManager) :
      Reachable m → Reachable (next_message_id m).2
  | nextConn (m : ConnectionManager) :
      Reachable m → Reachable (next_connection_id m).2
  | registerStep (m : ConnectionManager) (c : Connection) :
      Reachable m → Reachable (register m c)
  | disconnectStep (m : ConnectionManager) (c : Connection) :
      Reachable m → Reachable (disconnect m c)
  | broadcastStep (m : ConnectionManager) (msg : Message) :
      Reachable m → Reachable (send_message_in_conversation m msg).1

theorem mem_appendHistory_ne_nil (hist : List (Nat × List Message))
    (msg : Message) (hne : ∀ q ∈ hist, q.2 ≠ []) :
    ∀ p ∈ appendHistory hist msg, p.2 ≠ [] := by
  intro p hp
  cases hh : dictGet hist msg.conversation_id with
  | none =>
      unfold appendHistory at hp
      rw [hh] at hp
      rcases mem_dictSet _ _ _ _ hp with h1 | h1
      · rw [h1]; simp
      · exact hne p h1
  | some msgs =>
      unfold appendHistory at hp
      rw [hh] at hp
      rcases mem_dictSet _ _ _ _ hp with h1 | h1
      · rw [h1]; simp
      · exact hne p h1

theorem history_values_nonempty (m : ConnectionManager) (h : Reachable m) :
    ∀ p ∈ m.conversation_history, p.2 ≠ [] := by
  induction h with
  | init => intro p hp; cases hp
  | nextMsg m _ ih => exact ih
  | nextConn m _ ih => exact ih
  | registerStep m c _ ih => exact ih
  | disconnectStep m c _ ih => exact ih
  | broadcastStep m msg _ ih =>
      intro p hp
      rw [send_message_history] at hp
      exact mem_appendHistory_ne_nil m.conversation_history msg ih p hp

theorem foldr_latest_some (d : List (Nat × List Message))
    (h : ∀ p ∈ d, p.2 ≠ []) :
    ∃ msgs, d.foldr
        (fun p acc =>
          match p.2.getLast?, acc with
          | some msg, some rest => some (msg :: rest)
          | _, _ => none)
        (some []) = some msgs := by
  induction d with
  | nil => exact ⟨[], rfl⟩
  | cons p rest ih =>
      obtain ⟨msgs, hmsgs⟩ := ih (fun q hq => h q (List.mem_cons_of_mem _ hq))
      have hp := h p (List.mem_cons_self _ _)
      obtain ⟨x, hx⟩ : ∃ x, p.2.getLast? = some x :=
        ⟨p.2.getLast hp, List.getLast?_eq_getLast _ hp⟩
      exact ⟨x :: msgs, by simp [List.foldr_cons, hmsgs, hx]⟩

/-- C10: in every reachable manager state, every conversation id present in
the history map is bound to a non-empty message list, so the `[-1]`
accesses of the latest-message endpoints never fail: a conversation that
exists in the map always yields a message from `fetch_latest_message`
(never a 404), and `fetch_all_latest_messages` never hits an empty list. -/
theorem conversation_entries_nonempty (m : ConnectionManager)
    (h : Reachable m) :
    (∀ p ∈ m.conversation_history, p.2 ≠ []) ∧
      (∀ c l, dictGet m.conversation_history c = some l →
        ∃ msg, fetch_latest_message m c = .ok msg) ∧
      (∃ msgs, fetch_all_latest_messages m = some msgs) := by
  have hinv := history_values_nonempty m h
  refine ⟨hinv, ?_, foldr_latest_some _ hinv⟩
  intro c l hl
  have hne : l ≠ [] := hinv (c, l) (mem_of_dictGet _ _ _ hl)
  refine ⟨l.getLast hne, ?_⟩
  exact fetch_latest_eq m c l hl _ (List.getLast?_eq_getLast _ hne)

theorem conversation_entries_nonempty_witness :
    Reachable ((send_message_in_conversation initManager
        ⟨1, "hi", "alice", 1, 7⟩).1) ∧
      ∃ msg, fetch_latest_message
          ((send_message_in_conversation initManager
              ⟨1, "hi", "alice", 1, 7⟩).1) 7 = .ok msg := by
  have hr : Reachable ((send_message_in_conversation initManager
      ⟨1, "hi", "alice", 1, 7⟩).1) :=
    Reachable.broadcastStep initManager ⟨1, "hi", "alice", 1, 7⟩ Reachable.init
  refine ⟨hr, ?_⟩
  exact (conversation_entries_nonempty _ hr).2.1 7 [⟨1, "hi", "alice", 1, 7⟩] rfl

/-! ## Rate limiting (C7) -/

/-- Modelled from the spec: the `Cooldown` class of the third-party
`cooldowns` library is not part of this repository. Spec section 4.5
specifies it as a window limiter admitting at most `limit` operations per
key per window of duration `timePeriod`; denials are reported with retry
metadata and do not run the guarded operation. -/
structure Cooldown where
  limit : Nat
  timePeriod : Nat
deriving Repr, DecidableEq

/-- Modelled from the spec: one admission check at time `now` against one
key's state (the admission times still inside the window): drop the expired
stamps, admit iff fewer than `limit` remain. -/
def cooldownCheck (cd : Cooldown) (now : Nat) (st : List Nat) :
    Bool × List Nat :=
  let live := st.filter (fun ts => now < ts + cd.timePeriod)
  if live.length < cd.limit then (true, now :: live) else (false, live)

/-- `global_ratelimit = Cooldown(25, 10, CooldownBucket.args)`. -/
def global_ratelimit : Cooldown := ⟨25, 10⟩

/-- `authenticated_ratelimit = Cooldown(10, 5, CooldownBucket.args)`. -/
def authenticated_ratelimit : Cooldown := ⟨10, 5⟩

/-- The admitted call times of a sequence of admission checks against one
key, starting from state `st`. -/
def grantedTimes (cd : Cooldown) (st : List Nat) : List Nat → List Nat
  | [] => []
  | t :: rest =>
      if (cooldownCheck cd t st).1
      then t :: grantedTimes cd (cooldownCheck cd t st).2 rest
      else grantedTimes cd (cooldownCheck cd t st).2 rest

theorem grantedTimes_subset (cd : Cooldown) (times : List Nat) :
    ∀ (st : List Nat) (x : Nat), x ∈ grantedTimes cd st times → x ∈ times := by
  induction times with
  | nil => intro st x hx; rw [grantedTimes] at hx; cases hx
  | cons t rest ih =>
      intro st x hx
      rw [grantedTimes] at hx
      cases hok : (cooldownCheck cd t st).1 with
      | true =>
          rw [hok, if_pos rfl] at hx
          rcases List.mem_cons.mp hx with h1 | h1
          · exact h1 ▸ List.mem_cons_self _ _
          · exact List.mem_cons_of_mem _ (ih _ _ h1)
      | false =>
          rw [hok] at hx
          simp only [Bool.false_eq_true, if_false] at hx
          exact List.mem_cons_of_mem _ (ih _ _ hx)

theorem filter_window_of_live (st : List Nat) (t a W : Nat)
    (htw : t < a + W) :
    ((st.filter (fun ts => t < ts + W)).filter
        (fun ts => decide (a ≤ ts ∧ ts < a + W))).length =
      (st.filter (fun ts => decide (a ≤ ts ∧ ts < a + W))).length := by
  rw [List.filter_filter]
  congr 1
  apply List.filter_congr
  intro ts _
  by_cases hw : a ≤ ts ∧ ts < a + W
  · have : t < ts + W := by omega
    simp [hw, this]
  · simp [hw]

theorem grantedTimes_cons_true (cd : Cooldown) (t : Nat) (st rest : List Nat)
    (h : (cooldownCheck cd t st).1 = true) :
    grantedTimes cd st (t :: rest) =
      t :: grantedTimes cd (cooldownCheck cd t st).2 rest := by
  rw [grantedTimes, if_pos h]

theorem grantedTimes_cons_false (cd : Cooldown) (t : Nat) (st rest : List Nat)
    (h : (cooldownCheck cd t st).1 = false) :
    grantedTimes cd st (t :: rest) =
      grantedTimes cd (cooldownCheck cd t st).2 rest := by
  rw [grantedTimes, h]
  simp

theorem grantedTimes_window_bound (cd : Cooldown) (times : List Nat) :
    ∀ (st : List Nat) (a : Nat),
      List.Pairwise (· ≤ ·) times →
      (∀ ts ∈ st, ∀ t ∈ times, ts ≤ t) →
      ((grantedTimes cd st times).filter
          (fun ts => decide (a ≤ ts ∧ ts < a + cd.timePeriod))).length ≤
        cd.limit -
          (st.filter
            (fun ts => decide (a ≤ ts ∧ ts < a + cd.timePeriod))).length := by
  induction times with
  | nil => intro st a _ _; rw [grantedTimes]; simp
  | cons t rest ih =>
      intro st a hmono hst
      have hhead : ∀ x ∈ rest, t ≤ x := (List.pairwise_cons.mp hmono).1
      have htail : List.Pairwise (· ≤ ·) rest := (List.pairwise_cons.mp hmono).2
      have hlen : ∀ l : List Nat,
          ((t :: l).filter
              (fun ts => decide (a ≤ ts ∧ ts < a + cd.timePeriod))).length =
            (l.filter
              (fun ts => decide (a ≤ ts ∧ ts < a + cd.timePeriod))).length +
              (if a ≤ t ∧ t < a + cd.timePeriod then 1 else 0) := by
        intro l
        by_cases hwt : a ≤ t ∧ t < a + cd.timePeriod <;>
          simp [List.filter_cons, hwt]
      by_cases htw : t < a + cd.timePeriod
      · -- the head call time is not past the window's end
        by_cases hlt : (st.filter
            (fun ts => t < ts + cd.timePeriod)).length < cd.limit
        · -- admitted
          have hfst : (cooldownCheck cd t st).1 = true := by
            simp [cooldownCheck, hlt]
          have hsnd : (cooldownCheck cd t st).2 =
              t :: st.filter (fun ts => t < ts + cd.timePeriod) := by
            simp [cooldownCheck, hlt]
          rw [grantedTimes_cons_true cd t st rest hfst, hsnd]
          have hih := ih (t :: st.filter (fun ts => t < ts + cd.timePeriod)) a
            htail
            (by
              intro ts hts t' ht'
              rcases List.mem_cons.mp hts with h1 | h1
              · exact h1 ▸ hhead t' ht'
              · exact hst ts (List.mem_of_mem_filter h1) t'
                  (List.mem_cons_of_mem _ ht'))
          have hwc := filter_window_of_live st t a cd.timePeriod htw
          have hwcle : (st.filter
              (fun ts => decide (a ≤ ts ∧ ts < a + cd.timePeriod))).length <
              cd.limit := by
            rw [← hwc]
            calc ((st.filter (fun ts => t < ts + cd.timePeriod)).filter
                  (fun ts => decide (a ≤ ts ∧ ts < a + cd.timePeriod))).length ≤
                (st.filter (fun ts => t < ts + cd.timePeriod)).length :=
                  List.length_filter_le _ _
              _ < cd.limit := hlt
          rw [hlen] at hih ⊢
          rw [hwc] at hih
          by_cases hwt : a ≤ t ∧ t < a + cd.timePeriod
          · rw [if_pos hwt] at hih ⊢
            omega
          · rw [if_neg hwt] at hih ⊢
            omega
        · -- denied
          have hfst : (cooldownCheck cd t st).1 = false := by
            simp [cooldownCheck, hlt]
          have hsnd : (cooldownCheck cd t st).2 =
              st.filter (fun ts => t < ts + cd.timePeriod) := by
            simp [cooldownCheck, hlt]
          rw [grantedTimes_cons_false cd t st rest hfst, hsnd]
          have hih := ih (st.filter (fun ts => t < ts + cd.timePeriod)) a
            htail
            (by
              intro ts hts t' ht'
              exact hst ts (List.mem_of_mem_filter hts) t'
                (List.mem_cons_of_mem _ ht'))
          rw [filter_window_of_live st t a cd.timePeriod htw] at hih
          exact hih
      · -- the head call time is at or past a + W: all remaining call times
        -- fall at or past it too, outside the window
        have hnil : (grantedTimes cd st (t :: rest)).filter
            (fun ts => decide (a ≤ ts ∧ ts < a + cd.timePeriod)) = [] := by
          apply List.filter_eq_nil_iff.mpr
          intro x hx
          have hxt : t ≤ x := by
            cases hok : (cooldownCheck cd t st).1 with
            | true =>
                rw [grantedTimes_cons_true cd t st rest hok] at hx
                rcases List.mem_cons.mp hx with h1 | h1
                · exact le_of_eq h1.symm
                · exact hhead x (grantedTimes_subset cd rest _ x h1)
            | false =>
                rw [grantedTimes_cons_false cd t st rest hok] at hx
                exact hhead x (grantedTimes_subset cd rest _ x hx)
          simp only [decide_eq_true_eq]
          omega
        rw [hnil]
        simp

/-- The routes of the FastAPI app that reach the manager: the read routes
and the message-send route. -/
inductive Route where
  | conversationIds
  | conversationMessages (conversation_id : Nat)
  | allLatest
  | latest (conversation_id : Nat)
  | postMessage (conversation_id : Nat) (content : String)
      (x_connection_id : Option Nat) (x_nonce : Option String)

/-- Whether the route is the message-send route. -/
def Route.isPost : Route → Bool
  | .postMessage _ _ _ _ => true
  | _ => false

/-- One limiter's per-key buckets: key to the admitted timestamps still in
its window. -/
def bucketOf {κ : Type} [DecidableEq κ] (b : List (κ × List Nat)) (k : κ) :
    List Nat :=
  (dictGet b k).getD []

/-- Check one key against one limiter, updating that key's bucket. -/
def bucketCheck {κ : Type} [DecidableEq κ] (cd : Cooldown)
    (b : List (κ × List Nat)) (k : κ) (now : Nat) :
    Bool × List (κ × List Nat) :=
  ((cooldownCheck cd now (bucketOf b k)).1,
   dictSet b k (cooldownCheck cd now (bucketOf b k)).2)

/-- Whole-application state: the manager plus both limiters' buckets. -/
structure AppState where
  manager : ConnectionManager
  globalBuckets : List (Option String × List Nat)
  authBuckets : List ((Option String × Option Nat) × List Nat)

/-- HTTP status of the read-only routes. -/
def readStatus (m : ConnectionManager) : Route → Nat
  | .conversationIds => 200
  | .conversationMessages cid =>
      match dictGet m.conversation_history cid with
      | none => 404
      | some [] => 404
      | some (_ :: _) => 200
  | .allLatest => 200
  | .latest cid =>
      match fetch_latest_message m cid with
      | .ok _ => 200
      | .error e => e
  | .postMessage _ _ _ _ => 204

/-- The `ratelimit_routes` middleware plus route dispatch: every inbound
request first passes the global limiter keyed by its `X-Forwarded-For`
value (the code's sentinel for a missing header is modelled by the `none`
key); a denial answers 429 without running any route handler. The
message-send route additionally passes the authenticated limiter keyed by
the `(X-Nonce, X-Connection-Id)` pair before its handler body runs; the
other routes never consult it. -/
def handleRequest (s : AppState) (now : Nat) (xff : Option String)
    (r : Route) : Nat × AppState :=
  let g := bucketCheck global_ratelimit s.globalBuckets xff now
  if ! g.1 then (429, { s with globalBuckets := g.2 })
  else
    match r with
    | .postMessage cid content xconn xnonce =>
        let a2 := bucketCheck authenticated_ratelimit s.authBuckets
          (xnonce, xconn) now
        if ! a2.1 then
          (429, { s with globalBuckets := g.2, authBuckets := a2.2 })
        else
          let res := send_message s.manager cid content xconn xnonce
          (res.1,
           { manager := res.2, globalBuckets := g.2, authBuckets := a2.2 })
    | r' => (readStatus s.manager r', { s with globalBuckets := g.2 })

/-- C7: the global limiter is `Cooldown(25, 10)` keyed by the client
address header and checked on every inbound request before any route
handler runs — its denial answers 429 and leaves the manager and the
authenticated limiter untouched; the authenticated-send limiter is
`Cooldown(10, 5)` keyed by the (nonce, connection id) pair and is consulted
only by the message-send route, in addition to the global one — its denial
also answers 429 and leaves the manager untouched; and each limiter admits
at most its limit (25 and 10 respectively) of calls inside any window of
its period (10 and 5) over a nondecreasing call-time sequence. -/
theorem rate_limiter_configuration :
    (global_ratelimit = ⟨25, 10⟩ ∧ authenticated_ratelimit = ⟨10, 5⟩) ∧
      (∀ (times : List Nat) (a : Nat), List.Pairwise (· ≤ ·) times →
        ((grantedTimes global_ratelimit [] times).filter
            (fun ts => decide (a ≤ ts ∧ ts < a + 10))).length ≤ 25) ∧
      (∀ (times : List Nat) (a : Nat), List.Pairwise (· ≤ ·) times →
        ((grantedTimes authenticated_ratelimit [] times).filter
            (fun ts => decide (a ≤ ts ∧ ts < a + 5))).length ≤ 10) ∧
      (∀ (s : AppState) (now : Nat) (xff : Option String) (r : Route),
        (bucketCheck global_ratelimit s.globalBuckets xff now).1 = false →
        (handleRequest s now xff r).1 = 429 ∧
          ((handleRequest s now xff r).2).manager = s.manager ∧
          ((handleRequest s now xff r).2).authBuckets = s.authBuckets) ∧
      (∀ (s : AppState) (now : Nat) (xff : Option String) (r : Route),
        r.isPost = false →
        ((handleRequest s now xff r).2).authBuckets = s.authBuckets ∧
          ((handleRequest s now xff r).2).manager = s.manager) ∧
      (∀ (s : AppState) (now : Nat) (xff : Option String) (cid : Nat)
          (content : String) (xconn : Option Nat) (xnonce : Option String),
        (bucketCheck global_ratelimit s.globalBuckets xff now).1 = true →
        (bucketCheck authenticated_ratelimit s.authBuckets (xnonce, xconn)
            now).1 = false →
        (handleRequest s now xff
            (.postMessage cid content xconn xnonce)).1 = 429 ∧
          ((handleRequest s now xff
              (.postMessage cid content xconn xnonce)).2).manager =
            s.manager) := by
  refine ⟨⟨rfl, rfl⟩, ?_, ?_, ?_, ?_, ?_⟩
  · intro times a hmono
    have h := grantedTimes_window_bound global_ratelimit times [] a hmono
      (by intro ts hts; cases hts)
    simpa [global_ratelimit] using h
  · intro times a hmono
    have h := grantedTimes_window_bound authenticated_ratelimit times [] a
      hmono (by intro ts hts; cases hts)
    simpa [authenticated_ratelimit] using h
  · intro s now xff r hg
    simp [handleRequest, hg]
  · intro s now xff r hr
    by_cases hg : (bucketCheck global_ratelimit s.globalBuckets xff now).1
    · cases r <;> simp_all [handleRequest, Route.isPost]
    · simp only [Bool.not_eq_true] at hg
      simp [handleRequest, hg]
  · intro s now xff cid content xconn xnonce hg ha
    simp [handleRequest, hg, ha]

theorem rate_limiter_configuration_witness :
    (List.Pairwise (· ≤ ·) [0, 1, 2] ∧
      ((grantedTimes global_ratelimit [] [0, 1, 2]).filter
          (fun ts => decide (0 ≤ ts ∧ ts < 0 + 10))).length ≤ 25 ∧
      ((grantedTimes authenticated_ratelimit [] [0, 1, 2]).filter
          (fun ts => decide (0 ≤ ts ∧ ts < 0 + 5))).length ≤ 10) ∧
      ((bucketCheck global_ratelimit
          [((none : Option String), List.replicate 25 0)] none 5).1 = false ∧
        (handleRequest ⟨initManager, [(none, List.replicate 25 0)], []⟩ 5
            none Route.conversationIds).1 = 429) ∧
      (Route.conversationIds.isPost = false ∧
        ((handleRequest ⟨initManager, [], []⟩ 0 none
            Route.conversationIds).2).authBuckets = []) ∧
      ((bucketCheck authenticated_ratelimit
            [(((some "n" : Option String), (some 1 : Option Nat)),
              List.replicate 10 0)] (some "n", some 1) 2).1 = false ∧
        (handleRequest ⟨initManager, [],
            [((some "n", some 1), List.replicate 10 0)]⟩ 2 none
            (Route.postMessage 7 "hi" (some 1) (some "n"))).1 = 429) := by
  refine ⟨⟨by decide, ?_, ?_⟩, ⟨by decide, ?_⟩, ⟨rfl, ?_⟩, ⟨by decide, ?_⟩⟩
  · exact rate_limiter_configuration.2.1 [0, 1, 2] 0 (by decide)
  · exact rate_limiter_configuration.2.2.1 [0, 1, 2] 0 (by decide)
  · exact (rate_limiter_configuration.2.2.2.1
      ⟨initManager, [(none, List.replicate 25 0)], []⟩ 5 none
      Route.conversationIds (by decide)).1
  · exact (rate_limiter_configuration.2.2.2.2.1 ⟨initManager, [], []⟩ 0 none
      Route.conversationIds rfl).1
  · exact (rate_limiter_configuration.2.2.2.2.2
      ⟨initManager, [], [((some "n", some 1), List.replicate 10 0)]⟩ 2 none 7
      "hi" (some 1) (some "n") (by decide) (by decide)).1

end Zentra
